import Mathlib

/-!
Verification of the RESP codec, command model and keyed store of the
`redisServerRust` repository, as a shallow embedding in Lean 4.

Modelling conventions, fixed once for the whole file:

* Bytes are `Nat`; buffers (Rust `BytesMut`, `&[u8]`) are `List Nat`.
* Rust `String`/`&str` values are modelled as their UTF-8 byte sequences,
  i.e. also `List Nat`.  ASCII literals are written with `strBytes`.
* Rust `usize` arithmetic is modelled with release-build semantics:
  additions wrap modulo `2 ^ 64` where the source can overflow, and a
  slice expression `&input[a..b]` with `a > b` or `b > input.len()` is a
  panic, modelled as an explicit `PResult.panic` outcome.  (A debug build
  would already panic at the overflowing addition; either way the
  operation traps, which is all the theorems below rely on.)
* `SystemTime` instants and `Duration` values are `Nat` (nanoseconds).
  Every store operation of the source holds the store lock for its whole
  duration, so one call is modelled as happening at a single instant
  `now`, which stands for all the `SystemTime::now()` reads the source
  performs inside that one critical section.
* `RespType::parse` mutates its `BytesMut` argument; the embedding
  instead returns the buffer left behind alongside the outcome.
  Recursion through `parse_array`'s child parses is paid for with a fuel
  argument; the public entry point supplies `input.length + 1` fuel,
  which is more than the nesting depth any buffer can reach (every
  recursive child parse runs on a strictly shorter buffer).
-/

/-- Bytes of an ASCII string literal. -/
def strBytes (s : String) : List Nat :=
  s.data.map Char.toNat

/-- The `usize` modulus. -/
def USIZE : Nat := 2 ^ 64

/-- Largest `i64` value. -/
def maxI64 : Nat := 2 ^ 63 - 1

/-- Rust `len as usize` on an `i64` value: two's-complement reinterpretation. -/
def i64AsUsize (n : Int) : Nat :=
  (n % (USIZE : Int)).toNat

/-- Rust `&input[a..b]`: `none` models the panic on a reversed or
out-of-range slice. -/
def sliceB (input : List Nat) (a b : Nat) : Option (List Nat) :=
  if a ≤ b ∧ b ≤ input.length then some ((input.drop a).take (b - a)) else none

/-- Function `find_crlf` of `src/resp/mod.rs`: position of the first adjacent
`\r\n` (bytes 13, 10) pair, `none` when there is none (this also covers
the source's `input.len() < 2` early return). -/
def find_crlf : List Nat → Option Nat
  | a :: b :: rest =>
    if a = 13 ∧ b = 10 then some 0 else (find_crlf (b :: rest)).map (· + 1)
  | _ => none

/-- Decimal value of an ASCII digit byte. -/
def digitVal (b : Nat) : Option Nat :=
  if 48 ≤ b ∧ b ≤ 57 then some (b - 48) else none

/-- Left-to-right accumulation of decimal digits; fails on the first
non-digit byte. -/
def digitsToNatAux : List Nat → Nat → Option Nat
  | [], acc => some acc
  | b :: rest, acc =>
    match digitVal b with
    | some d => digitsToNatAux rest (acc * 10 + d)
    | none => none

/-- Value of a non-empty all-digit byte string. -/
def digitsToNat : List Nat → Option Nat
  | [] => none
  | bs => digitsToNatAux bs 0

/-- Rust `str::parse::<i64>()` on the bytes of the string: optional sign,
then one or more ASCII digits, result within the `i64` range. -/
def parse_i64 (s : List Nat) : Option Int :=
  match s with
  | [] => none
  | c :: rest =>
    if c = 43 then
      match digitsToNat rest with
      | some n => if n ≤ maxI64 then some (Int.ofNat n) else none
      | none => none
    else if c = 45 then
      match digitsToNat rest with
      | some n => if n ≤ 2 ^ 63 then some (-(Int.ofNat n)) else none
      | none => none
    else
      match digitsToNat (c :: rest) with
      | some n => if n ≤ maxI64 then some (Int.ofNat n) else none
      | none => none

/-- Rust `str::parse::<u64>()` on the bytes of the string: optional `+`,
then one or more ASCII digits, result within the `u64` range. -/
def parse_u64 (s : List Nat) : Option Nat :=
  match s with
  | [] => none
  | c :: rest =>
    if c = 43 then
      match digitsToNat rest with
      | some n => if n < USIZE then some n else none
      | none => none
    else
      match digitsToNat (c :: rest) with
      | some n => if n < USIZE then some n else none
      | none => none

/-- Big-endian decimal digit bytes of `n`, consed onto `acc`; the fuel
argument (any bound on `n` works) only makes the `n / 10` recursion
structural. -/
def natDigitsAux : Nat → Nat → List Nat → List Nat
  | 0, _, acc => acc
  | f + 1, n, acc =>
    if n = 0 then acc else natDigitsAux f (n / 10) ((48 + n % 10) :: acc)

/-- Decimal byte string of a `Nat` (Rust `u64::to_string` shape). -/
def natToBytes (n : Nat) : List Nat :=
  if n = 0 then [48] else natDigitsAux n n []

/-- Rust `i64::to_string`: decimal digits with a `-` sign when negative. -/
def i64ToBytes (i : Int) : List Nat :=
  if i < 0 then 45 :: natToBytes (-i).toNat else natToBytes i.toNat

/-- Two's-complement wrap of an integer into the `i64` range: release-mode
semantics of Rust `i64` addition. -/
def wrap64 (x : Int) : Int :=
  (x + 2 ^ 63) % 2 ^ 64 - 2 ^ 63

/-- Rust `char::is_whitespace` restricted to ASCII, which is all the
plain-text fallback line can contain in the situations the theorems
below evaluate (the Unicode cases of `split_whitespace` are not
modelled). -/
def isWS (b : Nat) : Bool :=
  b = 32 || b = 9 || b = 10 || b = 11 || b = 12 || b = 13

/-- Rust `str::split_whitespace` on bytes: maximal non-whitespace runs, empty
tokens skipped.  `cur` holds the bytes of the current token in reverse. -/
def splitWSAux : List Nat → List Nat → List (List Nat)
  | [], cur => if cur = [] then [] else [cur.reverse]
  | b :: rest, cur =>
    if isWS b then
      if cur = [] then splitWSAux rest [] else cur.reverse :: splitWSAux rest []
    else
      splitWSAux rest (b :: cur)

/-- Rust `str::split_whitespace` on bytes. -/
def splitWS (s : List Nat) : List (List Nat) :=
  splitWSAux s []

/-- Continuation byte of a UTF-8 sequence. -/
def utf8Cont (b : Nat) : Bool :=
  128 ≤ b && b ≤ 191

/-- Rust `str::from_utf8` validity (RFC 3629 table: no overlong forms, no
surrogates, nothing above U+10FFFF). -/
def utf8Valid : List Nat → Bool
  | [] => true
  | b :: rest =>
    if b ≤ 127 then utf8Valid rest
    else if 194 ≤ b && b ≤ 223 then
      match rest with
      | c1 :: r => utf8Cont c1 && utf8Valid r
      | [] => false
    else if b = 224 then
      match rest with
      | c1 :: c2 :: r => (160 ≤ c1 && c1 ≤ 191) && utf8Cont c2 && utf8Valid r
      | _ => false
    else if (225 ≤ b && b ≤ 236) || b = 238 || b = 239 then
      match rest with
      | c1 :: c2 :: r => utf8Cont c1 && utf8Cont c2 && utf8Valid r
      | _ => false
    else if b = 237 then
      match rest with
      | c1 :: c2 :: r => (128 ≤ c1 && c1 ≤ 159) && utf8Cont c2 && utf8Valid r
      | _ => false
    else if b = 240 then
      match rest with
      | c1 :: c2 :: c3 :: r =>
        (144 ≤ c1 && c1 ≤ 191) && utf8Cont c2 && utf8Cont c3 && utf8Valid r
      | _ => false
    else if 241 ≤ b && b ≤ 243 then
      match rest with
      | c1 :: c2 :: c3 :: r =>
        utf8Cont c1 && utf8Cont c2 && utf8Cont c3 && utf8Valid r
      | _ => false
    else if b = 244 then
      match rest with
      | c1 :: c2 :: c3 :: r =>
        (128 ≤ c1 && c1 ≤ 143) && utf8Cont c2 && utf8Cont c3 && utf8Valid r
      | _ => false
    else false

/-- Rust `str::from_utf8`: the same bytes on success, `none` on invalid UTF-8. -/
def from_utf8 (s : List Nat) : Option (List Nat) :=
  if utf8Valid s then some s else none

/-- Type `RespType` of `src/resp/mod.rs`; string payloads are UTF-8 bytes. -/
inductive RespType where
  | SimpleString (s : List Nat)
  | Error (s : List Nat)
  | Integer (n : Int)
  | BulkString (s : Option (List Nat))
  | Array (a : Option (List RespType))
deriving Repr

/-- Type `RespError` of `src/resp/mod.rs` (the `Utf8Error` payload is not
needed by any property). -/
inductive RespError where
  | invalidData
  | invalidUtf8
deriving Repr, DecidableEq

/-- Outcome of one `RespType::parse` call.  `ok v buf` is `Ok(Some(v))`
with `buf` the bytes the call left in the `BytesMut`; `incomplete buf` is
`Ok(None)` (`buf` again what is left behind — the source is supposed to
leave the buffer untouched in this case); `err` is `Err(..)`; `panic` is
a Rust panic; `nofuel` is unreachable at the fuel the public entry point
supplies and exists only to make the recursion total. -/
inductive PResult where
  | ok (v : RespType) (buf : List Nat)
  | incomplete (buf : List Nat)
  | err (e : RespError) (buf : List Nat)
  | panic
  | nofuel
deriving Repr

mutual

/-- Method `RespType::serialize`. -/
def RespType.serialize : RespType → List Nat
  | .SimpleString s => 43 :: (s ++ [13, 10])
  | .Error s => 45 :: (s ++ [13, 10])
  | .Integer n => 58 :: (i64ToBytes n ++ [13, 10])
  | .BulkString none => strBytes "$-1\r\n"
  | .BulkString (some s) => 36 :: (natToBytes s.length ++ [13, 10] ++ s ++ [13, 10])
  | .Array none => strBytes "*-1\r\n"
  | .Array (some arr) => 42 :: (natToBytes arr.length ++ [13, 10] ++ serializeList arr)

/-- The `for item in arr { result.extend(item.serialize()) }` loop of
`RespType::serialize`. -/
def serializeList : List RespType → List Nat
  | [] => []
  | x :: xs => x.serialize ++ serializeList xs

end

/-- Function `parse_simple_string` of `src/resp/mod.rs`. -/
def parse_simple_string (input : List Nat) : PResult :=
  match find_crlf input with
  | none => .incomplete input
  | some e =>
    match sliceB input 1 e with
    | none => .panic
    | some lineB =>
      match from_utf8 lineB with
      | none => .err .invalidUtf8 input
      | some line => .ok (.SimpleString line) (input.drop (e + 2))

/-- Function `parse_error` of `src/resp/mod.rs`. -/
def parse_error (input : List Nat) : PResult :=
  match find_crlf input with
  | none => .incomplete input
  | some e =>
    match sliceB input 1 e with
    | none => .panic
    | some lineB =>
      match from_utf8 lineB with
      | none => .err .invalidUtf8 input
      | some line => .ok (.Error line) (input.drop (e + 2))

/-- Function `parse_integer` of `src/resp/mod.rs`. -/
def parse_integer (input : List Nat) : PResult :=
  match find_crlf input with
  | none => .incomplete input
  | some e =>
    match sliceB input 1 e with
    | none => .panic
    | some numB =>
      match from_utf8 numB with
      | none => .err .invalidUtf8 input
      | some numStr =>
        match parse_i64 numStr with
        | none => .err .invalidData input
        | some n => .ok (.Integer n) (input.drop (e + 2))

/-- Function `parse_bulk_string` of `src/resp/mod.rs`.  Here `len as usize` is the
two's-complement cast; `total_len` and the content-slice end wrap modulo
`2 ^ 64` exactly where the source's `usize` additions can overflow (the
start `len_end + 2` cannot overflow for a buffer that fits in memory, so
it is left plain). -/
def parse_bulk_string (input : List Nat) : PResult :=
  match find_crlf input with
  | none => .incomplete input
  | some len_end =>
    match sliceB input 1 len_end with
    | none => .panic
    | some lenB =>
      match from_utf8 lenB with
      | none => .err .invalidUtf8 input
      | some lenStr =>
        match parse_i64 lenStr with
        | none => .err .invalidData input
        | some len =>
          if len = -1 then .ok (.BulkString none) (input.drop (len_end + 2))
          else
            let lenU := i64AsUsize len
            let total_len := (len_end + 2 + lenU + 2) % USIZE
            if input.length < total_len then .incomplete input
            else
              match sliceB input (len_end + 2) ((len_end + 2 + lenU) % USIZE) with
              | none => .panic
              | some content =>
                match from_utf8 content with
                | none => .err .invalidUtf8 input
                | some s => .ok (.BulkString (some s)) (input.drop total_len)

/-- The `for _ in 0..len` loop of `parse_array`, with the recursive
`RespType::parse` call abstracted as `child`.  One iteration performs the
source's `split_off(pos)` / `swap` (so the child parses `input.drop pos`
while `input.take pos` is parked in `rest`), then on success re-attaches
the parked bytes with `unsplit` and — as in the source — sets `pos` to
the length of what the child left, and on an incomplete child re-attaches
and gives up.  A child error propagates through `?` before the `unsplit`,
so the parked bytes are dropped, exactly as in the source. -/
def parse_array_loop (child : List Nat → PResult) :
    Nat → List Nat → Nat → List RespType → PResult
  | 0, input, _, elements => .ok (.Array (some elements)) input
  | k + 1, input, pos, elements =>
    if input.length ≤ pos then .incomplete input
    else
      let pfx := input.take pos
      match child (input.drop pos) with
      | .ok element rest =>
        parse_array_loop child k (pfx ++ rest) rest.length (elements ++ [element])
      | .incomplete rest => .incomplete (pfx ++ rest)
      | .err e rest => .err e rest
      | .panic => .panic
      | .nofuel => .nofuel

/-- Method `RespType::parse` together with `parse_array` of `src/resp/mod.rs`,
with fuel for the `parse_array → parse` recursion.  The `'*'` branch is
`parse_array` inlined: length line, `-1` sentinel, then the child loop
(the source's `Vec::with_capacity(len)` has no observable effect and is
not modelled).  The final catch-all branch is the plain-text fallback. -/
def parseF : Nat → List Nat → PResult
  | 0, _ => .nofuel
  | fuel + 1, input =>
    if input = [] then .incomplete input
    else if find_crlf input = none then .incomplete input
    else if input.head? = some 43 then parse_simple_string input
    else if input.head? = some 45 then parse_error input
    else if input.head? = some 58 then parse_integer input
    else if input.head? = some 36 then parse_bulk_string input
    else if input.head? = some 42 then
      match find_crlf input with
      | none => .incomplete input
      | some len_end =>
        match sliceB input 1 len_end with
        | none => .panic
        | some lenB =>
          match from_utf8 lenB with
          | none => .err .invalidUtf8 input
          | some lenStr =>
            match parse_i64 lenStr with
            | none => .err .invalidData input
            | some len =>
              if len = -1 then .ok (.Array none) (input.drop (len_end + 2))
              else
                parse_array_loop (parseF fuel) (i64AsUsize len) input (len_end + 2) []
    else
      match find_crlf input with
      | none => .incomplete input
      | some e =>
        match from_utf8 (input.take e) with
        | none => .err .invalidUtf8 input
        | some line =>
          let parts := splitWS line
          if parts = [] then .err .invalidData input
          else
            .ok (.Array (some (parts.map (fun p => .BulkString (some p)))))
              (input.drop (e + 2))

/-- Public `RespType::parse`: enough fuel that `nofuel` is unreachable
(nesting depth never exceeds the buffer length). -/
def RespType.parse (input : List Nat) : PResult :=
  parseF (input.length + 1) input


/-- Type `Command` of `src/command/mod.rs`; key, value and message payloads
are UTF-8 bytes, a `Set` expiry is a `Duration` in nanoseconds. -/
inductive Command where
  | Ping
  | Echo (msg : List Nat)
  | Set (key value : List Nat) (expiry : Option Nat)
  | Get (key : List Nat)
  | Exists (key : List Nat)
  | Del (keys : List (List Nat))
  | Incr (key : List Nat)
  | Decr (key : List Nat)
  | Unknown (name : List Nat)
deriving Repr

/-- Rust `str::to_uppercase` restricted to ASCII (the Unicode-only cases
cannot produce any of the command names compared against below). -/
def asciiUpper (s : List Nat) : List Nat :=
  s.map (fun b => if 97 ≤ b ∧ b ≤ 122 then b - 32 else b)

/-- The `"DEL"` arm's key-collection loop of `Command::from_resp`: every
element must be a present bulk string, otherwise the whole frame is
rejected. -/
def bulkKeys : List RespType → Option (List (List Nat))
  | [] => some []
  | .BulkString (some s) :: rest => (bulkKeys rest).map (fun ks => s :: ks)
  | _ => none

/-- The `match command_name.as_str()` body of `Command::from_resp`,
taking the uppercased name and the whole decoded array. -/
def commandOfName (name : List Nat) (arr : List RespType) : Option Command :=
  if name = strBytes "PING" then some .Ping
  else if name = strBytes "ECHO" then
    if arr.length ≠ 2 then none
    else match arr[1]? with
      | some (RespType.BulkString (some s)) => some (.Echo s)
      | _ => none
  else if name = strBytes "SET" then
    if arr.length < 3 then none
    else match arr[1]? with
      | some (RespType.BulkString (some key)) =>
        match arr[2]? with
        | some (RespType.BulkString (some value)) =>
          let expiry : Option Nat :=
            if 5 ≤ arr.length then
              match arr[3]?, arr[4]? with
              | some (RespType.BulkString (some opt)), some (RespType.BulkString (some val)) =>
                if asciiUpper opt = strBytes "EX" then
                  match parse_u64 val with
                  | some secs => some (secs * 1000000000)
                  | none => none
                else if asciiUpper opt = strBytes "PX" then
                  match parse_u64 val with
                  | some millis => some (millis * 1000000)
                  | none => none
                else none
              | _, _ => none
            else none
          some (.Set key value expiry)
        | _ => none
      | _ => none
  else if name = strBytes "GET" then
    if arr.length ≠ 2 then none
    else match arr[1]? with
      | some (RespType.BulkString (some s)) => some (.Get s)
      | _ => none
  else if name = strBytes "EXISTS" then
    if arr.length ≠ 2 then none
    else match arr[1]? with
      | some (RespType.BulkString (some s)) => some (.Exists s)
      | _ => none
  else if name = strBytes "DEL" then
    if arr.length < 2 then none
    else (bulkKeys (arr.drop 1)).map (fun ks => .Del ks)
  else if name = strBytes "INCR" then
    if arr.length ≠ 2 then none
    else match arr[1]? with
      | some (RespType.BulkString (some s)) => some (.Incr s)
      | _ => none
  else if name = strBytes "DECR" then
    if arr.length ≠ 2 then none
    else match arr[1]? with
      | some (RespType.BulkString (some s)) => some (.Decr s)
      | _ => none
  else some (.Unknown name)

/-- Method `Command::from_resp` of `src/command/mod.rs`. -/
def Command.from_resp : RespType → Option Command
  | .Array (some arr) =>
    match arr with
    | [] => none
    | first :: _ =>
      match first with
      | .BulkString (some s) => commandOfName (asciiUpper s) arr
      | _ => none
  | _ => none

/-- Type `Value` of `src/store/mod.rs`: string payload (UTF-8 bytes) and an
optional absolute expiry instant. -/
structure Value where
  data : List Nat
  expiry : Option Nat
deriving Repr, DecidableEq

/-- Method `Value::new`: an expiry duration is anchored at the current instant. -/
def Value.new (now : Nat) (data : List Nat) (expiry : Option Nat) : Value :=
  { data := data, expiry := expiry.map (fun d => now + d) }

/-- Method `Value::is_expired`: strictly past the expiry instant. -/
def Value.is_expired (now : Nat) (v : Value) : Bool :=
  match v.expiry with
  | some e => decide (now > e)
  | none => false

/-- Method `Value::parse_int`. -/
def Value.parse_int (v : Value) : Option Int :=
  parse_i64 v.data

/-- Method `Value::remaining_duration`: the call `SystemTime::duration_since` succeeds
exactly when the expiry has not passed yet. -/
def Value.remaining_duration (now : Nat) (v : Value) : Option Nat :=
  v.expiry.bind (fun e => if now ≤ e then some (e - now) else none)

/-- The `HashMap<String, Value>` inside `Store`, as an association list
with at most one binding per key (observed only through `mapGet`). -/
def StoreMap := List (List Nat × Value)

/-- Operation `HashMap::get`. -/
def mapGet : StoreMap → List Nat → Option Value
  | [], _ => none
  | (k', v) :: rest, k => if k' = k then some v else mapGet rest k

/-- Operation `HashMap::remove`. -/
def mapRemove : StoreMap → List Nat → StoreMap
  | [], _ => []
  | (k', v) :: rest, k =>
    if k' = k then mapRemove rest k else (k', v) :: mapRemove rest k

/-- Operation `HashMap::insert`: the new binding replaces any previous one. -/
def mapInsert (m : StoreMap) (k : List Nat) (v : Value) : StoreMap :=
  (k, v) :: mapRemove m k

/-- Method `Store::set`. -/
def Store.set (now : Nat) (m : StoreMap) (key value : List Nat)
    (expiry : Option Nat) : StoreMap :=
  mapInsert m key (Value.new now value expiry)

/-- Method `Store::get`: lazy eviction of an expired entry on read. -/
def Store.get (now : Nat) (m : StoreMap) (key : List Nat) :
    Option (List Nat) × StoreMap :=
  match mapGet m key with
  | some v => if v.is_expired now then (none, mapRemove m key) else (some v.data, m)
  | none => (none, m)

/-- Method `Store::exists`: same eviction behaviour as `Store::get`, returning
presence instead of the value. -/
def Store.exists (now : Nat) (m : StoreMap) (key : List Nat) :
    Bool × StoreMap :=
  match mapGet m key with
  | some v => if v.is_expired now then (false, mapRemove m key) else (true, m)
  | none => (false, m)

/-- The `for key in keys` loop of `Store::del`, with the running `i64`
counter. -/
def delLoop (now : Nat) : List (List Nat) → StoreMap → Int → Int × StoreMap
  | [], m, deleted => (deleted, m)
  | k :: rest, m, deleted =>
    match mapGet m k with
    | some v =>
      if v.is_expired now then delLoop now rest m deleted
      else delLoop now rest (mapRemove m k) (deleted + 1)
    | none => delLoop now rest m deleted

/-- Present and not expired: the keys `Store::del` counts and removes. -/
def aliveB (now : Nat) (m : StoreMap) (k : List Nat) : Bool :=
  match mapGet m k with
  | some v => ! v.is_expired now
  | none => false

/-- Method `Store::del`. -/
def Store.del (now : Nat) (m : StoreMap) (keys : List (List Nat)) :
    Int × StoreMap :=
  delLoop now keys m 0

/-- Method `Store::incr`.  Addition wraps as native `i64` arithmetic does in a
release build. -/
def Store.incr (now : Nat) (m : StoreMap) (key : List Nat) :
    Except String Int × StoreMap :=
  match mapGet m key with
  | some v =>
    if v.is_expired now then
      (.ok 1, mapInsert (mapRemove m key) key (Value.new now (strBytes "1") none))
    else
      match v.parse_int with
      | some n =>
        let new_n := wrap64 (n + 1)
        let expiry := v.remaining_duration now
        (.ok new_n, mapInsert m key (Value.new now (i64ToBytes new_n) expiry))
      | none => (.error "ERR value is not an integer or out of range", m)
  | none => (.ok 1, mapInsert m key (Value.new now (strBytes "1") none))

/-- Method `Store::decr`. -/
def Store.decr (now : Nat) (m : StoreMap) (key : List Nat) :
    Except String Int × StoreMap :=
  match mapGet m key with
  | some v =>
    if v.is_expired now then
      (.ok (-1), mapInsert (mapRemove m key) key (Value.new now (strBytes "-1") none))
    else
      match v.parse_int with
      | some n =>
        let new_n := wrap64 (n - 1)
        let expiry := v.remaining_duration now
        (.ok new_n, mapInsert m key (Value.new now (i64ToBytes new_n) expiry))
      | none => (.error "ERR value is not an integer or out of range", m)
  | none => (.ok (-1), mapInsert m key (Value.new now (strBytes "-1") none))

/-- A sequence of `Store::incr` calls on one key, each running in its own
critical section at its own instant (the store's single mutex serialises
any concurrent interleaving into such a sequence).  Returns the final
map and the number of calls that returned `Ok`. -/
def incrTrace : List Nat → StoreMap → List Nat → StoreMap × Nat
  | [], m, _ => (m, 0)
  | t :: ts, m, k =>
    match Store.incr t m k with
    | (r, m') =>
      match incrTrace ts m' k with
      | (mfin, c) => (mfin, (match r with | .ok _ => 1 | .error _ => 0) + c)


theorem mapGet_mapRemove (m : StoreMap) (k k' : List Nat) :
    mapGet (mapRemove m k) k' = if k' = k then none else mapGet m k' := by
  induction m with
  | nil => simp [mapRemove, mapGet]
  | cons p rest ih =>
    obtain ⟨k0, v0⟩ := p
    by_cases h0 : k0 = k <;> by_cases h1 : k0 = k' <;> by_cases h2 : k' = k <;>
      simp_all [mapRemove, mapGet]

theorem mapGet_mapInsert (m : StoreMap) (k k' : List Nat) (v : Value) :
    mapGet (mapInsert m k v) k' = if k' = k then some v else mapGet m k' := by
  by_cases h : k' = k
  · subst h
    simp [mapInsert, mapGet]
  · simp [mapInsert, mapGet, Ne.symm h, h, mapGet_mapRemove]

theorem mapGet_mapInsert_self (m : StoreMap) (k : List Nat) (v : Value) :
    mapGet (mapInsert m k v) k = some v := by
  simp [mapGet_mapInsert]

theorem digitsToNat_cons (b : Nat) (l : List Nat) :
    digitsToNat (b :: l) = digitsToNatAux (b :: l) 0 := rfl

theorem digitsToNatAux_natDigitsAux (f : Nat) :
    ∀ n acc a, n ≤ f →
      ∃ j, digitsToNatAux (natDigitsAux f n acc) a =
        digitsToNatAux acc (a * 10 ^ j + n) := by
  induction f with
  | zero =>
    intro n acc a hn
    refine ⟨0, ?_⟩
    interval_cases n
    simp [natDigitsAux]
  | succ f ih =>
    intro n acc a hn
    by_cases h0 : n = 0
    · subst h0
      exact ⟨0, by simp [natDigitsAux]⟩
    · have hdiv : n / 10 ≤ f := by omega
      obtain ⟨j, hj⟩ := ih (n / 10) ((48 + n % 10) :: acc) a hdiv
      refine ⟨j + 1, ?_⟩
      have hd : digitVal (48 + n % 10) = some (n % 10) := by
        simp [digitVal]
        omega
      rw [natDigitsAux, if_neg h0, hj]
      simp only [digitsToNatAux, hd]
      congr 1
      have h2 : n / 10 * 10 + n % 10 = n := by omega
      calc (a * 10 ^ j + n / 10) * 10 + n % 10
          = a * (10 ^ j * 10) + (n / 10 * 10 + n % 10) := by ring
        _ = a * 10 ^ (j + 1) + n := by rw [h2, pow_succ]

theorem natDigitsAux_head (f : Nat) :
    ∀ n d0 acc, d0 < 10 →
      ∃ d rest, natDigitsAux f n ((48 + d0) :: acc) = (48 + d) :: rest ∧ d < 10 := by
  induction f with
  | zero => intro n d0 acc h; exact ⟨d0, acc, rfl, h⟩
  | succ f ih =>
    intro n d0 acc h
    by_cases h0 : n = 0
    · subst h0; exact ⟨d0, acc, by simp [natDigitsAux], h⟩
    · rw [natDigitsAux, if_neg h0]
      exact ih (n / 10) (n % 10) ((48 + d0) :: acc) (Nat.mod_lt _ (by omega))

theorem natToBytes_head (n : Nat) :
    ∃ d rest, natToBytes n = (48 + d) :: rest ∧ d < 10 := by
  by_cases h0 : n = 0
  · subst h0; exact ⟨0, [], rfl, by omega⟩
  · rw [natToBytes, if_neg h0]
    obtain ⟨f, hf⟩ : ∃ f, n = f + 1 := ⟨n - 1, by omega⟩
    subst hf
    rw [natDigitsAux, if_neg h0]
    exact natDigitsAux_head f ((f + 1) / 10) ((f + 1) % 10) []
      (Nat.mod_lt _ (by omega))

theorem digitsToNat_natToBytes (n : Nat) :
    digitsToNat (natToBytes n) = some n := by
  by_cases h0 : n = 0
  · subst h0
    simp [natToBytes, digitsToNat, digitsToNatAux, digitVal]
  · obtain ⟨d, rest, hds, hd⟩ := natToBytes_head n
    rw [hds, digitsToNat_cons, ← hds]
    rw [natToBytes, if_neg h0]
    obtain ⟨f, hf⟩ : ∃ f, n = f + 1 := ⟨n - 1, by omega⟩
    subst hf
    rw [natDigitsAux, if_neg h0]
    obtain ⟨j, hj⟩ := digitsToNatAux_natDigitsAux f ((f + 1) / 10)
      ((48 + (f + 1) % 10) :: []) 0 (by omega)
    rw [hj]
    have hdv : digitVal (48 + (f + 1) % 10) = some ((f + 1) % 10) := by
      simp [digitVal]
      omega
    simp only [digitsToNatAux, hdv]
    congr 1
    omega

theorem parse_i64_i64ToBytes (i : Int) (hlo : -(2 ^ 63) ≤ i)
    (hhi : i ≤ 2 ^ 63 - 1) : parse_i64 (i64ToBytes i) = some i := by
  by_cases hneg : i < 0
  · rw [i64ToBytes, if_pos hneg]
    have hm : digitsToNat (natToBytes (-i).toNat) = some (-i).toNat :=
      digitsToNat_natToBytes _
    have hle : (-i).toNat ≤ 2 ^ 63 := by omega
    rw [parse_i64]
    rw [if_neg (by norm_num), if_pos rfl]
    simp only [hm]
    rw [if_pos hle]
    congr 1
    simp only [Int.ofNat_eq_coe, Int.ofNat_toNat]
    omega
  · rw [i64ToBytes, if_neg hneg]
    obtain ⟨d, rest, hds, hd⟩ := natToBytes_head i.toNat
    have hm : digitsToNat (natToBytes i.toNat) = some i.toNat :=
      digitsToNat_natToBytes _
    rw [hds] at hm ⊢
    rw [parse_i64]
    rw [if_neg (by omega), if_neg (by omega)]
    simp only [hm]
    have hle : i.toNat ≤ maxI64 := by
      unfold maxI64
      omega
    rw [if_pos hle]
    congr 1
    simp only [Int.ofNat_eq_coe, Int.ofNat_toNat]
    omega

theorem parse_i64_range (s : List Nat) (n : Int) (h : parse_i64 s = some n) :
    -(2 ^ 63) ≤ n ∧ n ≤ 2 ^ 63 - 1 := by
  unfold parse_i64 maxI64 at h
  repeat' split at h
  all_goals simp_all
  all_goals omega

theorem wrap64_eq (x : Int) (hlo : -(2 ^ 63) ≤ x) (hhi : x ≤ 2 ^ 63 - 1) :
    wrap64 x = x := by
  unfold wrap64
  have h1 : (0 : Int) ≤ x + 2 ^ 63 := by omega
  have h2 : x + 2 ^ 63 < 2 ^ 64 := by omega
  rw [Int.emod_eq_of_lt h1 h2]
  omega

theorem delLoop_spec (now : Nat) (keys : List (List Nat)) :
    ∀ (m : StoreMap) (acc : Int), keys.Nodup →
      (delLoop now keys m acc).1 =
        acc + ((keys.filter (fun k => aliveB now m k)).length : Int) ∧
      ∀ k', mapGet (delLoop now keys m acc).2 k' =
        if k' ∈ keys ∧ aliveB now m k' then none else mapGet m k' := by
  induction keys with
  | nil => intro m acc _; simp [delLoop]
  | cons k rest ih =>
    intro m acc hnd
    obtain ⟨hk, hnd'⟩ := List.nodup_cons.mp hnd
    match hget : mapGet m k with
    | none =>
      have halive : aliveB now m k = false := by simp [aliveB, hget]
      have hstep : delLoop now (k :: rest) m acc = delLoop now rest m acc := by
        simp only [delLoop, hget]
      rw [hstep]
      obtain ⟨ih1, ih2⟩ := ih m acc hnd'
      refine ⟨?_, ?_⟩
      · rw [ih1]
        simp [List.filter_cons, halive]
      · intro k'
        rw [ih2 k']
        by_cases hmem : k' = k
        · subst hmem
          simp [hk, halive]
        · simp [hmem]
    | some v =>
      by_cases hexp : v.is_expired now
      · have halive : aliveB now m k = false := by simp [aliveB, hget, hexp]
        have hstep : delLoop now (k :: rest) m acc = delLoop now rest m acc := by
          simp [delLoop, hget, hexp]
        rw [hstep]
        obtain ⟨ih1, ih2⟩ := ih m acc hnd'
        refine ⟨?_, ?_⟩
        · rw [ih1]
          simp [List.filter_cons, halive]
        · intro k'
          rw [ih2 k']
          by_cases hmem : k' = k
          · subst hmem
            simp [hk, halive]
          · simp [hmem]
      · have halive : aliveB now m k = true := by simp [aliveB, hget, hexp]
        have hstep : delLoop now (k :: rest) m acc =
            delLoop now rest (mapRemove m k) (acc + 1) := by
          simp [delLoop, hget, hexp]
        rw [hstep]
        obtain ⟨ih1, ih2⟩ := ih (mapRemove m k) (acc + 1) hnd'
        have hsame : ∀ k'' ∈ rest, aliveB now (mapRemove m k) k'' = aliveB now m k'' := by
          intro k'' hmem
          have hne : k'' ≠ k := fun h => hk (h ▸ hmem)
          simp [aliveB, mapGet_mapRemove, hne]
        refine ⟨?_, ?_⟩
        · rw [ih1, List.filter_congr hsame]
          simp [List.filter_cons, halive]
          ring
        · intro k'
          rw [ih2 k']
          by_cases hmem : k' = k
          · subst hmem
            simp [hk, halive, mapGet_mapRemove]
          · have : aliveB now (mapRemove m k) k' = aliveB now m k' := by
              simp [aliveB, mapGet_mapRemove, hmem]
            simp [hmem, this, mapGet_mapRemove]

/-- C5: `Store::del` returns the number of listed keys that are present
and not expired and removes exactly those; a present-but-expired entry
is neither counted nor removed (it stays in the map for a later read to
reap), in contrast with `get`/`exists` which do remove such entries. -/
theorem del_counts_live_keys (now : Nat) (m : StoreMap)
    (keys : List (List Nat)) (hnd : keys.Nodup) :
    (Store.del now m keys).1 =
      ((keys.filter (fun k => aliveB now m k)).length : Int) ∧
    (∀ k', mapGet (Store.del now m keys).2 k' =
      if k' ∈ keys ∧ aliveB now m k' then none else mapGet m k') ∧
    (∀ k ∈ keys, ∀ v, mapGet m k = some v → v.is_expired now = true →
      mapGet (Store.del now m keys).2 k = some v) := by
  have h := delLoop_spec now keys m 0 hnd
  refine ⟨by simpa [Store.del] using h.1, by simpa [Store.del] using h.2, ?_⟩
  intro k hk v hv hexp
  have h2 := h.2 k
  have halive : aliveB now m k = false := by simp [aliveB, hv, hexp]
  simp only [Store.del] at *
  rw [h2, hv]
  simp [halive]

/-- Witness for C5 at a concrete store: of the keys `a` (live), `b`
(present but expired) and `c` (absent), `del` counts and removes only
`a`, and `b`'s entry survives. -/
theorem del_counts_live_keys_witness :
    (Store.del 10 [(strBytes "a", Value.mk (strBytes "x") none),
                   (strBytes "b", Value.mk (strBytes "y") (some 3))]
       [strBytes "a", strBytes "b", strBytes "c"]).1 = 1 ∧
    mapGet (Store.del 10 [(strBytes "a", Value.mk (strBytes "x") none),
                          (strBytes "b", Value.mk (strBytes "y") (some 3))]
       [strBytes "a", strBytes "b", strBytes "c"]).2 (strBytes "b") =
      some (Value.mk (strBytes "y") (some 3)) := by
  have h := del_counts_live_keys 10
    [(strBytes "a", Value.mk (strBytes "x") none),
     (strBytes "b", Value.mk (strBytes "y") (some 3))]
    [strBytes "a", strBytes "b", strBytes "c"] (by decide)
  refine ⟨h.1.trans (by rfl), ?_⟩
  exact h.2.2 (strBytes "b") (by simp) (Value.mk (strBytes "y") (some 3)) rfl rfl

/-- C6: on a present, unexpired entry whose payload does not parse as a
64-bit integer, `Store::incr` and `Store::decr` fail with the
integer-parse error reply (the claim's quoted text after the
conventional `ERR ` prefix) and leave the map, hence the entry's value
and expiry, completely unchanged. -/
theorem incr_decr_parse_failure (now : Nat) (m : StoreMap) (k : List Nat)
    (v : Value) (hget : mapGet m k = some v)
    (hexp : v.is_expired now = false) (hp : v.parse_int = none) :
    Store.incr now m k =
      (Except.error "ERR value is not an integer or out of range", m) ∧
    Store.decr now m k =
      (Except.error "ERR value is not an integer or out of range", m) := by
  constructor <;> simp [Store.incr, Store.decr, hget, hexp, hp]

/-- Witness for C6: incrementing a key holding `"abc"`. -/
theorem incr_decr_parse_failure_witness :
    Store.incr 0 [(strBytes "k", Value.mk (strBytes "abc") (some 99))]
        (strBytes "k") =
      (Except.error "ERR value is not an integer or out of range",
       [(strBytes "k", Value.mk (strBytes "abc") (some 99))]) := by
  exact (incr_decr_parse_failure 0
    [(strBytes "k", Value.mk (strBytes "abc") (some 99))] (strBytes "k")
    (Value.mk (strBytes "abc") (some 99)) rfl rfl rfl).1

/-- C7: `Store::get` returns absent on a missing key; on a present but
expired entry it removes the entry and returns absent, so the entry does
not survive the access; on a live entry it returns the stored value and
leaves the map unchanged.  `Store::exists` behaves identically, with
presence instead of the value. -/
theorem get_exists_lazy_expiry (now : Nat) (m : StoreMap) (k : List Nat) :
    (mapGet m k = none →
      Store.get now m k = (none, m) ∧ Store.exists now m k = (false, m)) ∧
    (∀ v, mapGet m k = some v → v.is_expired now = true →
      Store.get now m k = (none, mapRemove m k) ∧
      Store.exists now m k = (false, mapRemove m k) ∧
      mapGet (mapRemove m k) k = none) ∧
    (∀ v, mapGet m k = some v → v.is_expired now = false →
      Store.get now m k = (some v.data, m) ∧
      Store.exists now m k = (true, m)) := by
  refine ⟨fun h => ?_, fun v h hexp => ?_, fun v h hexp => ?_⟩
  · constructor <;> simp [Store.get, Store.exists, h]
  · refine ⟨?_, ?_, ?_⟩
    · simp [Store.get, h, hexp]
    · simp [Store.exists, h, hexp]
    · simp [mapGet_mapRemove]
  · constructor <;> simp [Store.get, Store.exists, h, hexp]

/-- Witness for C7: reading a present-but-expired entry evicts it. -/
theorem get_exists_lazy_expiry_witness :
    Store.get 10 [(strBytes "a", Value.mk (strBytes "x") (some 5))]
        (strBytes "a") = (none, []) ∧
    Store.exists 10 [(strBytes "a", Value.mk (strBytes "x") (some 5))]
        (strBytes "a") = (false, []) := by
  have h := (get_exists_lazy_expiry 10
    [(strBytes "a", Value.mk (strBytes "x") (some 5))] (strBytes "a")).2.1
    (Value.mk (strBytes "x") (some 5)) rfl rfl
  exact ⟨h.1.trans (by rfl), h.2.1.trans (by rfl)⟩

/-- C4: on a present entry holding a parseable integer whose expiry is
still in the future, `incr` and `decr` overwrite the value with the
incremented (decremented) integer and re-anchor the remaining
time-to-live at the operation's instant: the stored expiry becomes
`now + (e - now)`, so the TTL remaining afterwards is positive and does
not exceed the TTL that remained just before the operation — in
particular the expiry is never dropped and never restarted from the full
original window. -/
theorem incr_decr_preserves_ttl (now : Nat) (m : StoreMap) (k : List Nat)
    (v : Value) (e : Nat) (n : Int) (hget : mapGet m k = some v)
    (he : v.expiry = some e) (hfut : now < e) (hp : v.parse_int = some n) :
    (Store.incr now m k =
      (Except.ok (wrap64 (n + 1)),
       mapInsert m k
         (Value.mk (i64ToBytes (wrap64 (n + 1))) (some (now + (e - now))))) ∧
     Store.decr now m k =
      (Except.ok (wrap64 (n - 1)),
       mapInsert m k
         (Value.mk (i64ToBytes (wrap64 (n - 1))) (some (now + (e - now)))))) ∧
    0 < now + (e - now) - now ∧ now + (e - now) - now ≤ e - now := by
  have hexp : v.is_expired now = false := by
    simp [Value.is_expired, he]
    omega
  have hrem : v.remaining_duration now = some (e - now) := by
    simp [Value.remaining_duration, he]
    omega
  refine ⟨⟨?_, ?_⟩, by omega, by omega⟩
  · simp [Store.incr, hget, hexp, hp, hrem, Value.new]
  · simp [Store.decr, hget, hexp, hp, hrem, Value.new]

/-- Witness for C4: `incr` at instant 5 on a value expiring at 9 yields
the incremented value still expiring at 9 (4 ns of TTL remain). -/
theorem incr_decr_preserves_ttl_witness :
    Store.incr 5 [(strBytes "k", Value.mk (strBytes "41") (some 9))]
        (strBytes "k") =
      (Except.ok 42, [(strBytes "k", Value.mk (strBytes "42") (some 9))]) := by
  have h := (incr_decr_preserves_ttl 5
    [(strBytes "k", Value.mk (strBytes "41") (some 9))] (strBytes "k")
    (Value.mk (strBytes "41") (some 9)) 9 41 rfl rfl (by omega) rfl).1.1
  exact h.trans (by rfl)

/-- C9: the store's single mutex makes every `incr` call one atomic
critical section, so any interleaving of concurrent callers on one key
is some sequential trace of calls; along any such trace starting from an
integer value with no expiry, every call succeeds and the final stored
value is the initial value plus the number of successful increments —
none lost, none double-applied. -/
theorem concurrent_incr_no_lost_updates (times : List Nat) (m : StoreMap)
    (k : List Nat) (v : Value) (n : Int) (hget : mapGet m k = some v)
    (hexp : v.expiry = none) (hp : v.parse_int = some n)
    (hlo : -(2 ^ 63) ≤ n) (hhi : n + times.length ≤ 2 ^ 63 - 1) :
    (∃ v', mapGet (incrTrace times m k).1 k = some v' ∧
      v'.parse_int = some (n + times.length) ∧ v'.expiry = none) ∧
    (incrTrace times m k).2 = times.length := by
  induction times generalizing m v n with
  | nil =>
    refine ⟨⟨v, ?_, ?_, hexp⟩, rfl⟩
    · simpa [incrTrace] using hget
    · simpa using hp
  | cons t ts ih =>
    have hexpB : v.is_expired t = false := by simp [Value.is_expired, hexp]
    have hrem : v.remaining_duration t = none := by
      simp [Value.remaining_duration, hexp]
    have hwrap : wrap64 (n + 1) = n + 1 := by
      apply wrap64_eq <;> [omega; (simp at hhi; omega)]
    have hstep : Store.incr t m k =
        (Except.ok (n + 1),
         mapInsert m k (Value.mk (i64ToBytes (n + 1)) none)) := by
      simp [Store.incr, hget, hexpB, hp, hrem, Value.new, hwrap]
    have hget' : mapGet (mapInsert m k (Value.mk (i64ToBytes (n + 1)) none)) k =
        some (Value.mk (i64ToBytes (n + 1)) none) := mapGet_mapInsert_self _ _ _
    have hp' : (Value.mk (i64ToBytes (n + 1)) none).parse_int = some (n + 1) := by
      apply parse_i64_i64ToBytes <;> [omega; (simp at hhi; omega)]
    have hhi' : n + 1 + (ts.length : Int) ≤ 2 ^ 63 - 1 := by
      simp at hhi
      omega
    obtain ⟨⟨v', hv1, hv2, hv3⟩, hc⟩ := ih
      (mapInsert m k (Value.mk (i64ToBytes (n + 1)) none))
      (Value.mk (i64ToBytes (n + 1)) none) (n + 1) hget' rfl hp' (by omega) hhi'
    refine ⟨⟨v', ?_, ?_, hv3⟩, ?_⟩
    · simpa [incrTrace, hstep] using hv1
    · rw [hv2]
      congr 1
      simp only [List.length_cons]
      push_cast
      ring
    · simp only [incrTrace, hstep, hc, List.length_cons]
      omega

/-- Witness for C9: two increments on a key holding `"5"` end at `"7"`
with both calls successful. -/
theorem concurrent_incr_no_lost_updates_witness :
    (∃ v', mapGet (incrTrace [3, 7]
        [(strBytes "c", Value.mk (strBytes "5") none)] (strBytes "c")).1
        (strBytes "c") = some v' ∧
      v'.parse_int = some 7 ∧ v'.expiry = none) ∧
    (incrTrace [3, 7] [(strBytes "c", Value.mk (strBytes "5") none)]
        (strBytes "c")).2 = 2 := by
  have h := concurrent_incr_no_lost_updates [3, 7]
    [(strBytes "c", Value.mk (strBytes "5") none)] (strBytes "c")
    (Value.mk (strBytes "5") none) 5 rfl rfl rfl (by norm_num) (by norm_num)
  simpa using h

/-- C3 counterexample: the claim says a PING frame with 2 elements and a
SET frame with 4 elements yield no Command, but `Command::from_resp`
accepts both (PING has no arity check at all; SET only requires at least
3 elements and a 4-element SET simply gets no expiry). -/
theorem command_arity_counterexample :
    Command.from_resp (RespType.Array (some
      [RespType.BulkString (some (strBytes "PING")),
       RespType.BulkString (some (strBytes "x"))])) = some Command.Ping ∧
    Command.from_resp (RespType.Array (some
      [RespType.BulkString (some (strBytes "SET")),
       RespType.BulkString (some (strBytes "k")),
       RespType.BulkString (some (strBytes "v")),
       RespType.BulkString (some (strBytes "junk"))])) =
      some (Command.Set (strBytes "k") (strBytes "v") none) :=
  ⟨rfl, rfl⟩

/-- C3 amended: the arity checks `Command::from_resp` actually performs.
ECHO, GET, EXISTS, INCR and DECR require exactly 2 elements, DEL at
least 2 and SET at least 3, and frames violating those bounds produce no
Command; but PING is accepted at any element count, and a SET frame
whose key and value positions hold bulk strings is accepted at any count
of at least 3: counts 3 and 4 parse with no expiry, and at counts of 5
or more the command (with its expiry) is determined by the first five
elements alone — elements past the fifth are ignored. -/
theorem command_arity_checks (first : RespType) (rest : List RespType)
    (name : List Nat) (hfirst : first = RespType.BulkString (some name)) :
    (asciiUpper name = strBytes "PING" →
      Command.from_resp (RespType.Array (some (first :: rest))) =
        some Command.Ping) ∧
    (asciiUpper name = strBytes "ECHO" → (first :: rest).length ≠ 2 →
      Command.from_resp (RespType.Array (some (first :: rest))) = none) ∧
    (asciiUpper name = strBytes "GET" → (first :: rest).length ≠ 2 →
      Command.from_resp (RespType.Array (some (first :: rest))) = none) ∧
    (asciiUpper name = strBytes "EXISTS" → (first :: rest).length ≠ 2 →
      Command.from_resp (RespType.Array (some (first :: rest))) = none) ∧
    (asciiUpper name = strBytes "INCR" → (first :: rest).length ≠ 2 →
      Command.from_resp (RespType.Array (some (first :: rest))) = none) ∧
    (asciiUpper name = strBytes "DECR" → (first :: rest).length ≠ 2 →
      Command.from_resp (RespType.Array (some (first :: rest))) = none) ∧
    (asciiUpper name = strBytes "DEL" → (first :: rest).length < 2 →
      Command.from_resp (RespType.Array (some (first :: rest))) = none) ∧
    (asciiUpper name = strBytes "SET" → (first :: rest).length < 3 →
      Command.from_resp (RespType.Array (some (first :: rest))) = none) ∧
    (asciiUpper name = strBytes "SET" → ∀ key value,
      rest = [RespType.BulkString (some key), RespType.BulkString (some value)] →
      Command.from_resp (RespType.Array (some (first :: rest))) =
        some (Command.Set key value none)) ∧
    (asciiUpper name = strBytes "SET" → ∀ key value w,
      rest = [RespType.BulkString (some key), RespType.BulkString (some value), w] →
      Command.from_resp (RespType.Array (some (first :: rest))) =
        some (Command.Set key value none)) ∧
    (asciiUpper name = strBytes "SET" → ∀ key value w3 w4 tail,
      rest = RespType.BulkString (some key) :: RespType.BulkString (some value) ::
        w3 :: w4 :: tail →
      (∃ e, Command.from_resp (RespType.Array (some (first :: rest))) =
        some (Command.Set key value e)) ∧
      Command.from_resp (RespType.Array (some (first :: rest))) =
        Command.from_resp (RespType.Array (some [first,
          RespType.BulkString (some key), RespType.BulkString (some value),
          w3, w4]))) := by
  subst hfirst
  refine ⟨fun hn => ?_, fun hn h2 => ?_, fun hn h2 => ?_, fun hn h2 => ?_,
    fun hn h2 => ?_, fun hn h2 => ?_, fun hn h2 => ?_, fun hn h3 => ?_,
    fun hn key value hrest => ?_, fun hn key value w hrest => ?_,
    fun hn key value w3 w4 tail hrest => ?_⟩ <;>
    simp only [Command.from_resp, hn]
  · simp [commandOfName, strBytes]
  all_goals try
    (have h2a : rest.length ≠ 1 := by simpa using h2
     simp [commandOfName, strBytes, h2a])
  · have h2a : rest.length = 0 := by simp at h2; omega
    simp [commandOfName, strBytes, h2a]
  · have h3a : rest.length < 2 := by simp at h3; omega
    simp [commandOfName, strBytes, h3a]
  · subst hrest
    simp [commandOfName, strBytes]
  · subst hrest
    simp [commandOfName, strBytes]
  · subst hrest
    unfold commandOfName
    rw [if_neg (by decide), if_neg (by decide), if_pos rfl]
    rw [if_neg (show ¬((RespType.BulkString (some name) ::
        RespType.BulkString (some key) :: RespType.BulkString (some value) ::
        w3 :: w4 :: tail).length < 3) from by
      simp only [List.length_cons]
      omega)]
    rw [if_pos (show 5 ≤ (RespType.BulkString (some name) ::
        RespType.BulkString (some key) :: RespType.BulkString (some value) ::
        w3 :: w4 :: tail).length from by
      simp only [List.length_cons]
      omega)]
    simp only [List.getElem?_cons_zero, List.getElem?_cons_succ]
    exact ⟨⟨_, rfl⟩, rfl⟩

/-- Witness for C3's amended theorem: a 1-element ECHO frame is
rejected. -/
theorem command_arity_checks_witness :
    Command.from_resp (RespType.Array (some
      [RespType.BulkString (some (strBytes "echo"))])) = none := by
  exact (command_arity_checks (RespType.BulkString (some (strBytes "echo")))
    [] (strBytes "echo") rfl).2.1 rfl (by decide)

/-- C1 (code bug): `decode(encode(v))` does not consume the encoded
frame for arrays with at least one element.  After each child parse,
`parse_array` sets `pos` to the *length of the remaining bytes* instead
of an offset and `unsplit`s the already-scanned prefix (header included)
back onto the buffer, so decoding the serialization of the one-element
array `["a"]` returns the right value but leaves the header bytes
`*1\r\n` unconsumed, and decoding the serialization of the two-element
array `["a", "b"]` returns a different value altogether (the second
child is picked up mid-frame by the plain-text fallback). -/
theorem decode_encode_roundtrip_fails :
    RespType.serialize
        (RespType.Array (some [RespType.BulkString (some (strBytes "a"))])) =
      strBytes "*1\r\n$1\r\na\r\n" ∧
    RespType.parse (strBytes "*1\r\n$1\r\na\r\n") =
      PResult.ok
        (RespType.Array (some [RespType.BulkString (some (strBytes "a"))]))
        (strBytes "*1\r\n") ∧
    RespType.serialize
        (RespType.Array (some [RespType.BulkString (some (strBytes "a")),
          RespType.BulkString (some (strBytes "b"))])) =
      strBytes "*2\r\n$1\r\na\r\n$1\r\nb\r\n" ∧
    RespType.parse (strBytes "*2\r\n$1\r\na\r\n$1\r\nb\r\n") =
      PResult.ok
        (RespType.Array (some [RespType.BulkString (some (strBytes "a")),
          RespType.Array (some [RespType.BulkString (some (strBytes "b"))])]))
        (strBytes "*2\r\n$1\r") :=
  ⟨rfl, rfl, rfl, rfl⟩

/-- C2 (code bug): on an array frame whose second child is incomplete,
decode does report incomplete, but the buffer afterwards is not what it
was: for `*2\r\n$1\r\na\r\n$1\r` the already-parsed first child's bytes
`$1\r\na\r\n` have been consumed and lost (only `*2\r\n$1\r` remains),
so a retry on a longer buffer cannot reproduce a single whole-buffer
parse. -/
theorem array_incomplete_loses_bytes :
    RespType.parse (strBytes "*2\r\n$1\r\na\r\n$1\r") =
      PResult.incomplete (strBytes "*2\r\n$1\r") ∧
    strBytes "*2\r\n$1\r" ≠ strBytes "*2\r\n$1\r\na\r\n$1\r" :=
  ⟨rfl, by decide⟩

/-- C10 (code bug): a bulk-string header declaring a negative length
other than `-1` makes `parse_bulk_string` reinterpret the length as a
huge `usize`; for `$-2\r\n` the wrapped `total_len` equals the buffer
length, the incompleteness check passes, and the content slice
`input[5..3]` is reversed — a panic (a debug build already panics at the
overflowing `total_len` addition), not incomplete, not a value, not a
decode error. -/
theorem bulk_negative_length_panics :
    RespType.parse (strBytes "$-2\r\n") = PResult.panic ∧
    parse_bulk_string (strBytes "$-2\r\n") = PResult.panic :=
  ⟨rfl, rfl⟩

theorem parse_dispatch_bulk (input : List Nat) (h0 : input.head? = some 36)
    (hc : ∃ e, find_crlf input = some e) :
    RespType.parse input = parse_bulk_string input := by
  obtain ⟨e, he⟩ := hc
  obtain ⟨b, rest, rfl⟩ : ∃ b rest, input = b :: rest := by
    cases input with
    | nil => simp at h0
    | cons b rest => exact ⟨b, rest, rfl⟩
  simp only [List.head?_cons, Option.some.injEq] at h0
  subst h0
  rw [RespType.parse, parseF]
  simp [he]

/-- C8: decoding a buffer that starts a bulk-string frame.  A declared
length of `-1` yields the null bulk string, consuming only the length
line; a declared length `n ≥ 0` with fewer than
`length_line + n + terminator` bytes present reports incomplete and
consumes nothing; with all those bytes present (and the content valid
text, as the protocol requires) it yields the `n`-byte string, consuming
exactly `length_line + n + terminator` bytes.  The two byte-count side
conditions only keep the `usize` arithmetic away from its wrap-around
point, which no buffer that fits in memory can reach. -/
theorem bulk_string_decode_spec (input : List Nat) (len_end : Nat)
    (lineB : List Nat) (h0 : input.head? = some 36)
    (hc : find_crlf input = some len_end)
    (hsl : sliceB input 1 len_end = some lineB)
    (hu : utf8Valid lineB = true) :
    (parse_i64 lineB = some (-1) →
      RespType.parse input =
        PResult.ok (RespType.BulkString none) (input.drop (len_end + 2))) ∧
    (∀ n : Nat, parse_i64 lineB = some (Int.ofNat n) →
      (input.length < len_end + 2 + n + 2 → len_end + 2 + n + 2 < USIZE →
        RespType.parse input = PResult.incomplete input) ∧
      (len_end + 2 + n + 2 ≤ input.length → input.length < USIZE →
        utf8Valid ((input.drop (len_end + 2)).take n) = true →
        RespType.parse input =
          PResult.ok
            (RespType.BulkString (some ((input.drop (len_end + 2)).take n)))
            (input.drop (len_end + 2 + n + 2)))) := by
  have hd : RespType.parse input = parse_bulk_string input :=
    parse_dispatch_bulk input h0 ⟨len_end, hc⟩
  rw [hd]
  have hbody : parse_bulk_string input =
      match parse_i64 lineB with
      | none => .err .invalidData input
      | some len =>
        if len = -1 then .ok (.BulkString none) (input.drop (len_end + 2))
        else
          let lenU := i64AsUsize len
          let total_len := (len_end + 2 + lenU + 2) % USIZE
          if input.length < total_len then .incomplete input
          else
            match sliceB input (len_end + 2) ((len_end + 2 + lenU) % USIZE) with
            | none => .panic
            | some content =>
              match from_utf8 content with
              | none => .err .invalidUtf8 input
              | some s => .ok (.BulkString (some s)) (input.drop total_len) := by
    rw [parse_bulk_string, hc]
    simp only [hsl, from_utf8, hu, if_true]
  rw [hbody]
  constructor
  · intro hneg
    simp [hneg]
  · intro n hn
    obtain ⟨hr1, hr2⟩ := parse_i64_range lineB (Int.ofNat n) hn
    simp only [Int.ofNat_eq_coe] at hr1 hr2
    have hne : Int.ofNat n ≠ -1 := by
      simp only [Int.ofNat_eq_coe]
      omega
    have hnsz : n < USIZE := by
      unfold USIZE
      omega
    have hlu : i64AsUsize (Int.ofNat n) = n := by
      unfold i64AsUsize USIZE
      simp only [Int.ofNat_eq_coe]
      unfold USIZE at hnsz
      omega
    simp only [hn, if_neg hne, hlu]
    constructor
    · intro hlt hsz
      rw [Nat.mod_eq_of_lt hsz, if_pos hlt]
    · intro hge hbuf hcu
      have hsz : len_end + 2 + n + 2 < USIZE := by omega
      rw [Nat.mod_eq_of_lt hsz, if_neg (by omega)]
      have hsz2 : len_end + 2 + n < USIZE := by omega
      rw [Nat.mod_eq_of_lt hsz2]
      have hslc : sliceB input (len_end + 2) (len_end + 2 + n) =
          some ((input.drop (len_end + 2)).take n) := by
        unfold sliceB
        rw [if_pos (by omega)]
        have harg : len_end + 2 + n - (len_end + 2) = n := by omega
        rw [harg]
      rw [hslc]
      simp only [from_utf8, hcu, if_true]

/-- Witness for C8: decoding `$3\r\nabc\r\nZ` yields `abc` and consumes
exactly the 9-byte frame, leaving `Z`. -/
theorem bulk_string_decode_spec_witness :
    RespType.parse (strBytes "$3\r\nabc\r\nZ") =
      PResult.ok (RespType.BulkString (some (strBytes "abc"))) (strBytes "Z") := by
  have h := ((bulk_string_decode_spec (strBytes "$3\r\nabc\r\nZ") 2 (strBytes "3")
    rfl rfl rfl rfl).2 3 rfl).2 (by decide) (by decide) rfl
  exact h.trans (by rfl)
